import Mathlib

/-!
Verification development for the rule/config-item engine in
`src/extension/content/ruleset/rule.js`.

The JavaScript values this engine stores and normalizes (booleans, strings,
numbers, `null`, `undefined`) are modelled by `JSValue`; JavaScript numbers
are modelled by `JSNum`, an exact extended-rational type with explicit
`nan`, `posInf` and `negInf` constructors (IEEE rounding is not modelled:
arithmetic on finite values is exact rational arithmetic, which is the
intended reading of the numeric claims).
-/

namespace Yawf

/-- Model of a JavaScript number: a finite (exact rational) value, `NaN`,
`Infinity` or `-Infinity`. -/
inductive JSNum where
  | num (q : ℚ)
  | nan
  | posInf
  | negInf
deriving DecidableEq, Repr

namespace JSNum

/-- `Number.isFinite`. -/
def isFinite : JSNum → Bool
  | num _ => true
  | _ => false

/-- `Number.isNaN` (also: `+x === x` is false exactly on `NaN`). -/
def isNaN : JSNum → Bool
  | nan => true
  | _ => false

/-- The `<` comparison on JS numbers (`NaN` compares false with everything). -/
def lt : JSNum → JSNum → Bool
  | num a, num b => decide (a < b)
  | nan, _ => false
  | _, nan => false
  | negInf, negInf => false
  | negInf, _ => true
  | _, negInf => false
  | posInf, _ => false
  | num _, posInf => true

/-- Subtraction of JS numbers. -/
def sub : JSNum → JSNum → JSNum
  | nan, _ => nan
  | _, nan => nan
  | posInf, posInf => nan
  | posInf, _ => posInf
  | negInf, negInf => nan
  | negInf, _ => negInf
  | num _, posInf => negInf
  | num _, negInf => posInf
  | num a, num b => num (a - b)

/-- Truncation toward zero of a rational, as used by the JS `%` operator. -/
def ratTrunc (q : ℚ) : ℤ := if 0 ≤ q then ⌊q⌋ else ⌈q⌉

/-- Exact remainder of two nonzero-divisor rationals with the sign convention
of the JS `%` operator (sign of the dividend). -/
def remQ (a b : ℚ) : ℚ := a - b * ratTrunc (a / b)

/-- The JS `%` operator: `NaN` when either operand is `NaN`, when the
dividend is infinite, or when the divisor is `0`; the dividend itself when
the divisor is infinite; exact truncated remainder otherwise. -/
def rem : JSNum → JSNum → JSNum
  | nan, _ => nan
  | _, nan => nan
  | posInf, _ => nan
  | negInf, _ => nan
  | num a, posInf => num a
  | num a, negInf => num a
  | num a, num b => if b = 0 then nan else num (remQ a b)

end JSNum

/-- Model of the JavaScript values the config store holds: `undefined`,
`null`, booleans, numbers and strings. -/
inductive JSValue where
  | vUndefined
  | vNull
  | vBool (b : Bool)
  | vNum (n : JSNum)
  | vStr (s : String)
deriving DecidableEq, Repr

namespace JSValue

/-- JS truthiness of a value. -/
def truthy : JSValue → Bool
  | vUndefined => false
  | vNull => false
  | vBool b => b
  | vNum (.num q) => decide (q ≠ 0)
  | vNum .nan => false
  | vNum .posInf => true
  | vNum .negInf => true
  | vStr s => decide (s ≠ "")

/-- `value == null` (the loose comparison): true exactly on `null` and
`undefined` for this value domain. -/
def looseNull : JSValue → Bool
  | vUndefined => true
  | vNull => true
  | _ => false

/-- Strict equality `===` on the modelled value domain. Structural except
that `NaN === NaN` is false. -/
def strictEq : JSValue → JSValue → Bool
  | vUndefined, vUndefined => true
  | vNull, vNull => true
  | vBool a, vBool b => a == b
  | vNum (.num a), vNum (.num b) => a == b
  | vNum .posInf, vNum .posInf => true
  | vNum .negInf, vNum .negInf => true
  | vStr a, vStr b => a == b
  | _, _ => false

/-- `Number(s)` on string values, modelled for the value domain this ruleset
stores: the empty string is `0`, a string of decimal digits with an optional
sign parses to the exact integer, and every other string is `NaN` (decimal
points and exponents are not modelled; no claim depends on them). -/
def strToNumber (s : String) : JSNum :=
  if s = "" then .num 0 else
  match s.toInt? with
  | some k => .num (k : ℚ)
  | none => .nan

/-- The JS `ToNumber` coercion (`+value`). -/
def toNumber : JSValue → JSNum
  | vUndefined => .nan
  | vNull => .num 0
  | vBool b => .num (if b then 1 else 0)
  | vNum n => n
  | vStr s => strToNumber s

end JSValue

/-- `JSON.stringify` on the modelled value domain, returning `none` for the
JS result `undefined` (which `JSON.stringify` yields on `undefined`).
Number serialization is modelled exactly for integral finite values — the
only numeric values this development serializes; other rationals are
rendered from their reduced fraction, which no theorem relies on.
`NaN` and the infinities serialize to `"null"` as in JS. -/
def jsonStringify : JSValue → Option String
  | .vUndefined => none
  | .vNull => some "null"
  | .vBool b => some (if b then "true" else "false")
  | .vNum (.num q) =>
      some (if q.den = 1 then toString q.num else toString q)
  | .vNum _ => some "null"
  | .vStr s => some ("\"" ++ s ++ "\"")

/-- Strict equality `===` between a `JSON.stringify` result (a string or
`undefined`) and an arbitrary value, as in the test
`JSON.stringify(value) !== normalize` of `ConfigItem.getConfig`. -/
def strictEqStrVal : Option String → JSValue → Bool
  | some s, .vStr t => s == t
  | none, .vUndefined => true
  | _, _ => false

/-- JS truthiness of a `JSON.stringify` result: `undefined` is falsy, a
string is truthy iff nonempty. -/
def truthyOptStr : Option String → Bool
  | none => false
  | some s => decide (s ≠ "")

/-- The write-back test of `ConfigItem.getConfig`
(`if (value && JSON.stringify(value) !== normalize && JSON.stringify(normalize))`),
with `value` the raw stored value and `normalize` the item's normalization
function. -/
def getConfigWrites (normalize : JSValue → JSValue) (value : JSValue) : Bool :=
  value.truthy && !(strictEqStrVal (jsonStringify value) (normalize value))
    && truthyOptStr (jsonStringify (normalize value))

/-- `ConfigItem.getConfig` as a store transformer: given the raw stored
value, returns the normalized result together with the store content after
the call (the normalized value when the write-back test fires, the original
content otherwise). -/
def getConfig (normalize : JSValue → JSValue) (value : JSValue) :
    JSValue × JSValue :=
  let n := normalize value
  (n, if getConfigWrites normalize value then n else value)

/-- The write-back condition the specification describes: normalization
changed the value structurally, compared by canonical JSON serialization. -/
def specWriteCondition (normalize : JSValue → JSValue) (value : JSValue) :
    Bool :=
  jsonStringify value != jsonStringify (normalize value)

/-! ## Typed variants: normalization -/

/-- `BooleanConfigItem.normalize`: `null`/`undefined` give the initial value
`false`; any other value is coerced by `!!value`. -/
def boolNormalize (value : JSValue) : JSValue :=
  if value.looseNull then .vBool false else .vBool value.truthy

/-- A declared select option: a display name and a value. -/
structure SelOpt where
  name : String
  value : JSValue
deriving DecidableEq, Repr

/-- `SelectConfigItem.initial`: the first option's value, or `null` when the
option list is empty. -/
def selectInitial (opts : List SelOpt) : JSValue :=
  match opts.head? with
  | some o => o.value
  | none => .vNull

/-- `SelectConfigItem.normalize` for a constructed item (whose `select`
attribute is an array): keep the value when some option's value is
strictly equal to it, otherwise fall back to the initial value. -/
def selectNormalize (opts : List SelOpt) (value : JSValue) : JSValue :=
  if opts.any fun o => o.value.strictEq value then value
  else selectInitial opts

/-- The `select` attribute as declared, before construction validates it:
absent (`undefined`), some non-array value, or an array of options. -/
inductive SelAttr where
  | absent
  | nonArray (v : JSValue)
  | arr (opts : List SelOpt)
deriving Repr

/-- Whether a value is a JS string. -/
def isStr : JSValue → Bool
  | .vStr _ => true
  | _ => false

/-- Whether `SelectConfigItem`'s constructor rejects the declared `select`
attribute. It throws when `!select || !Array.isArray(select)` — note an
empty array is truthy, hence accepted — or when some option's value fails
`item.value === '' + item.value`, i.e. is not a string (string coercion
always yields a string, and `===` between a non-string and a string is
false regardless of the coerced text). -/
def selectCtorFails (attr : SelAttr) : Bool :=
  match attr with
  | .absent => true
  | .nonArray _ => true
  | .arr opts => opts.any fun o => !(isStr o.value)

/-- Number/range item configuration: the `min`, `max` and `step` attributes
(JS numbers; the class defaults are `0`, `Infinity` and `1`). -/
structure NumCfg where
  min : JSNum
  max : JSNum
  step : JSNum
deriving Repr

/-- `NumberConfigItem.initial`: the configured `min`. -/
def numberInitial (cfg : NumCfg) : JSNum := cfg.min

/-- `NumberConfigItem.normalize`: coerce to number; non-finite input yields
the initial value; clamp below at `min` and above at `max` when each bound
is a non-`NaN` number (`+x === x`); when `step` is a finite non-`NaN`
number, subtract `(number - min) % step`. -/
def numberNormalize (cfg : NumCfg) (value : JSValue) : JSValue :=
  let number := value.toNumber
  if !number.isFinite then .vNum (numberInitial cfg) else
  let n1 := if !cfg.min.isNaN && number.lt cfg.min then cfg.min else number
  let n2 := if !cfg.max.isNaN && cfg.max.lt n1 then cfg.max else n1
  let n3 := if !cfg.step.isNaN && cfg.step.isFinite
    then n2.sub ((n2.sub cfg.min).rem cfg.step) else n2
  .vNum n3

/-- `RangeConfigItem` inherits `initial` and `normalize` unchanged from
`NumberConfigItem`: its normalization is the same function. -/
def rangeNormalize : NumCfg → JSValue → JSValue := numberNormalize

/-- The first clamp of `NumberConfigItem.normalize` on a finite input
(`number < min` pulls the value up to `min`), at the rational level. -/
def minClampQ (qmin qv : ℚ) : ℚ := if qv < qmin then qmin else qv

/-- The second clamp (`number > max` pulls the value down to `max`) on a
finite value, for a `max` attribute that is not `-Infinity` (a `NaN` or
`Infinity` bound never clamps). -/
def maxClampQ : JSNum → ℚ → ℚ
  | .num qmax, c => if qmax < c then qmax else c
  | _, c => c

/-- A well-formed `max` attribute relative to a finite `min`: a finite
bound not below `min`, `NaN` (no clamping), or `Infinity` (the class
default). `-Infinity` and an inverted finite bound are excluded — both make
normalization non-idempotent. -/
def maxOk (qmin : ℚ) : JSNum → Prop
  | .num qmax => qmin ≤ qmax
  | .negInf => False
  | _ => True

/-! ## Template engine: tokenization

The tokenizer of `parseTemplate` scans the template with the global regex
`(?:\{\{([^\}]+)\}\})|(?:\[\[([^\]]+)\]\])|(?:(\|\||\|))|(?:([^\|\[\{\&]+|&[^;]+;))`:
at each position the four alternatives are tried in order (child, rule,
splitter, text); a position where none matches is skipped without
producing a token, as the regex engine advances. The greedy character
classes cannot backtrack past their excluded terminator, so each
alternative is a deterministic longest-run scan. -/

/-- The kind of a template token (`types = ['child', 'rule', 'splitter', 'text']`). -/
inductive TokType where
  | child
  | rule
  | splitter
  | text
deriving DecidableEq, Repr

/-- A template token `{ type, value }`. -/
structure Token where
  type : TokType
  value : String
deriving DecidableEq, Repr

/-- Match `\{\{([^\}]+)\}\}` at the head: `{{`, a nonempty run of
non-`}` characters (the captured value), then `}}`. -/
def matchChild : List Char → Option (String × List Char)
  | '{' :: '{' :: rest =>
    let content := rest.takeWhile (· ≠ '}')
    if content.isEmpty then none else
    match rest.dropWhile (· ≠ '}') with
    | '}' :: '}' :: rest2 => some (String.mk content, rest2)
    | _ => none
  | _ => none

/-- Match `\[\[([^\]]+)\]\]` at the head. -/
def matchRuleTok : List Char → Option (String × List Char)
  | '[' :: '[' :: rest =>
    let content := rest.takeWhile (· ≠ ']')
    if content.isEmpty then none else
    match rest.dropWhile (· ≠ ']') with
    | ']' :: ']' :: rest2 => some (String.mk content, rest2)
    | _ => none
  | _ => none

/-- Match `(\|\||\|)` at the head (`||` preferred over `|`). -/
def matchSplitter : List Char → Option (String × List Char)
  | '|' :: '|' :: rest => some ("||", rest)
  | '|' :: rest => some ("|", rest)
  | _ => none

/-- The characters excluded from a plain text run (`[^\|\[\{\&]`). -/
def textStop (c : Char) : Bool := c = '|' || c = '[' || c = '{' || c = '&'

/-- Match `([^\|\[\{\&]+|&[^;]+;)` at the head: a maximal nonempty run of
non-stop characters, or a `&…;` entity (nonempty non-`;` body); the
captured value of an entity includes the `&` and the `;`. -/
def matchText : List Char → Option (String × List Char)
  | [] => none
  | '&' :: rest =>
    let content := rest.takeWhile (· ≠ ';')
    if content.isEmpty then none else
    match rest.dropWhile (· ≠ ';') with
    | ';' :: rest2 => some (String.mk ('&' :: content ++ [';']), rest2)
    | _ => none
  | c :: cs =>
    if textStop c then none else
    some (String.mk (c :: cs.takeWhile (fun d => !textStop d)),
      cs.dropWhile fun d => !textStop d)

/-- One scanning step: the leftmost-alternative token at the current
position, or a one-character skip when no alternative matches. -/
def nextToken (cs : List Char) : Option Token × List Char :=
  match matchChild cs with
  | some (v, rest) => (some ⟨.child, v⟩, rest)
  | none =>
  match matchRuleTok cs with
  | some (v, rest) => (some ⟨.rule, v⟩, rest)
  | none =>
  match matchSplitter cs with
  | some (v, rest) => (some ⟨.splitter, v⟩, rest)
  | none =>
  match matchText cs with
  | some (v, rest) => (some ⟨.text, v⟩, rest)
  | none => (none, cs.tail)

/-- The scanning loop, with fuel bounding the number of steps; each step
consumes at least one character, so fuel equal to the input length is
always sufficient for `tokenize` below. -/
def tokenizeFuel : Nat → List Char → List Token
  | 0, _ => []
  | _ + 1, [] => []
  | fuel + 1, c :: cs =>
    match nextToken (c :: cs) with
    | (some t, rest) => t :: tokenizeFuel fuel rest
    | (none, rest) => tokenizeFuel fuel rest

/-- `tokenize`: the full token list of a template string. -/
def tokenize (template : String) : List Token :=
  tokenizeFuel template.data.length template.data

/-- `filteredTokens`: drop every token whose type is not accepted. -/
def filteredTokens (tokens : List Token) (acceptTypes : List TokType) :
    List Token :=
  tokens.filter fun token => acceptTypes.contains token.type

/-- The accept-type table of `itemRender` for an explicitly given mode. -/
def modeTypes : String → List TokType
  | "normal" => [.child, .splitter, .text]
  | "recursive" => [.child, .splitter, .text, .rule]
  | "text" => [.child, .text]
  | _ => []

/-! ## Rule-tree construction

`RuleItem`'s constructor appends the new node to its parent's `children`;
`Tab`'s constructor additionally pushes the node onto the global `tabs`
registry; `Group`'s and `Rule`'s constructors check the parent's class
*before* calling `super`, throwing a `TypeError` (the specification's
`StructuralError`) when it is wrong, so a failed construction mutates
nothing. Object identity is modelled by numeric node ids. -/

/-- The concrete class of an already-constructed tree node. `instanceof Tab`
holds only for `tab`; `instanceof Group` only for `group`; `instanceof Rule`
for `rule` and `text` (`Text extends Rule`); `other` stands for any other
constructed config item. -/
inductive NodeClass where
  | tab
  | group
  | rule
  | text
  | other
deriving DecidableEq, Repr

/-- A reference to a constructed node: its identity and its class. -/
structure NodeRef where
  id : Nat
  cls : NodeClass
deriving DecidableEq, Repr

/-- The mutable construction state: the global `tabs` registry and every
node's `children` list, both holding node ids, plus the next fresh id. -/
structure World where
  tabs : List Nat
  children : List (Nat × List Nat)
  nextId : Nat
deriving DecidableEq, Repr

/-- Append `child` to the `children` list recorded for node `p`. -/
def pushChild (l : List (Nat × List Nat)) (p child : Nat) :
    List (Nat × List Nat) :=
  match l with
  | [] => [(p, [child])]
  | (q, cs) :: rest =>
    if q = p then (q, cs ++ [child]) :: rest
    else (q, cs) :: pushChild rest p child

/-- The construction-time errors of the tree protocol (thrown as
`TypeError`s in the source; named after the specification's taxonomy). -/
inductive CtorErr where
  | structural
deriving DecidableEq, Repr

/-- `RuleItem`'s constructor: allocate the node and, when a parent was
declared, push it onto `parent.children` (`this.parent.children.push(this)`). -/
def ruleItemCtor (w : World) (parent : Option NodeRef) : World × Nat :=
  let id := w.nextId
  match parent with
  | some p => (⟨w.tabs, pushChild w.children p.id id, id + 1⟩, id)
  | none => (⟨w.tabs, w.children, id + 1⟩, id)

/-- `Tab`'s constructor: `super(item)`, then initialize `children` and push
the node onto the global `tabs` registry. -/
def tabCtor (w : World) (parent : Option NodeRef) : World × Nat :=
  let (w1, id) := ruleItemCtor w parent
  (⟨w1.tabs ++ [id], w1.children, w1.nextId⟩, id)

/-- `Group`'s constructor: throw unless the declared parent is a `Tab`
instance — the check precedes `super`, so on failure the world is
untouched — then `super(item)` registers the node with its parent. -/
def groupCtor (w : World) (parent : Option NodeRef) :
    World × Except CtorErr Nat :=
  if !(match parent with | some p => p.cls = .tab | none => false : Bool) then
    (w, .error .structural)
  else
    let (w1, id) := ruleItemCtor w parent
    (w1, .ok id)

/-- `Rule`'s constructor: throw unless the declared parent is a `Group`
instance — again checked before `super`. -/
def ruleCtor (w : World) (parent : Option NodeRef) :
    World × Except CtorErr Nat :=
  if !(match parent with | some p => p.cls = .group | none => false : Bool) then
    (w, .error .structural)
  else
    let (w1, id) := ruleItemCtor w parent
    (w1, .ok id)

/-! ## Query/traversal

`query` walks a forest depth-first, recursing into the children of `Tab`
and `Group` nodes and adding every `Rule` instance it meets to an
insertion-ordered `Set`. A constructed object graph is modelled as a
forest of `RTree` nodes; a node reachable along several paths appears at
several positions carrying the same id (ids play the role of object
identity, so `Set` membership is membership of the id). -/

/-- A tree node: identity, class, and children in declaration order. -/
inductive RTree where
  | node (id : Nat) (cls : NodeClass) (children : List RTree)

/-- `instanceof Tab || instanceof Group`. -/
def isContainer : NodeClass → Bool
  | .tab => true
  | .group => true
  | _ => false

/-- `instanceof Rule` (`Text extends Rule`). -/
def isRuleInst : NodeClass → Bool
  | .rule => true
  | .text => true
  | _ => false

/-- Insertion into a JS `Set` viewed as an ordered list: adding an element
already present keeps the set (and the element's original position). -/
def setAdd (l : List Nat) (x : Nat) : List Nat :=
  if x ∈ l then l else l ++ [x]

/-- The recursive walk of `query`, threading the result set: for each item
in order, first recurse into the children of a `Tab`/`Group`, then add the
item itself when it is a `Rule` instance. -/
def queryAux : List RTree → List Nat → List Nat
  | [], result => result
  | .node id cls children :: rest, result =>
    let r1 := if isContainer cls then queryAux children result else result
    let r2 := if isRuleInst cls then setAdd r1 id else r1
    queryAux rest r2

/-- `rule.query`: the ordered, deduplicated list of reachable `Rule` ids. -/
def query (base : List RTree) : List Nat := queryAux base []

/-- The depth-first sequence of `Rule`-instance ids visited by the walk,
with multiplicity (the specification-side description of visit order). -/
def dfsRules : List RTree → List Nat
  | [] => []
  | .node id cls children :: rest =>
    (if isContainer cls then dfsRules children else [])
      ++ (if isRuleInst cls then [id] else []) ++ dfsRules rest

/-- Keeping the first occurrence of every element of a list, in order. -/
def dedupFirst (l : List Nat) : List Nat := l.foldl setAdd []

/-! ## Rule execution

`Rule.execute` first evaluates `this.isEnabled()` *outside* the `try`
block, then runs steps 2–5 (collect `css`, collect `acss` when enabled,
append the joined styles, call `init`, call `ainit` when enabled) inside a
`try` whose `catch` only logs. A rule's `css`/`acss` may be a string or a
function (which can throw); `init`/`ainit` are optional functions (which
can throw). Thrown JS exceptions are modelled with `Except Unit`. -/

/-- A `css`/`acss` attribute: a string literal, a function (returning a
string or throwing), or absent (any other `typeof`). -/
inductive CssSpec where
  | str (s : String)
  | fn (f : Except Unit String)
  | absent
deriving Repr

/-- An `init`/`ainit` attribute: a function (succeeding or throwing) or
absent. -/
inductive FnSpec where
  | fn (f : Except Unit Unit)
  | absent
deriving Repr

/-- The model of one declared `Rule`: its `always` flag, whether it has an
`id` (an item without an id throws `Error('id is required to init config')`
on first config access), the raw value its config slot holds, and its four
execution attributes. -/
structure MRule where
  always : Bool
  hasId : Bool
  stored : JSValue
  css : CssSpec
  acss : CssSpec
  init : FnSpec
  ainit : FnSpec
deriving Repr

/-- The errors that can escape a config access. -/
inductive ExecErr where
  | missingId
deriving DecidableEq, Repr

/-- `BooleanConfigItem.isEnabled` for a rule: `this.always || this.getConfig()`;
`getConfig` throws the missing-id error when the item has no `id`, and
otherwise yields the normalized stored boolean. -/
def isEnabled (r : MRule) : Except ExecErr Bool :=
  if r.always then .ok true
  else if !r.hasId then .error .missingId
  else .ok (boolNormalize r.stored).truthy

/-- The enabled state of a rule whose config access succeeds. -/
def enabledOf (r : MRule) : Bool :=
  r.always || (boolNormalize r.stored).truthy

/-- The externally observable events of one `execute` call. -/
inductive Effect where
  | styleAppend (s : String)
  | initCalled
  | ainitCalled
  | logged
deriving DecidableEq, Repr

/-- Collect the style text contributed by a `css`/`acss` attribute
(`typeof === 'string'` pushes the literal, `typeof === 'function'` pushes
the call result — which may throw). -/
def evalCss : CssSpec → Except Unit (List String)
  | .str s => .ok [s]
  | .fn (.ok s) => .ok [s]
  | .fn (.error e) => .error e
  | .absent => .ok []

/-- Steps 4–5 of the `try` block: call `init` when present, then `ainit`
when present and enabled; a throw skips the rest and appends the `catch`
log. -/
def runInits (r : MRule) (enabled : Bool) : List Effect :=
  match r.init with
  | .fn (.error _) => [.initCalled, .logged]
  | .fn (.ok _) =>
    (Effect.initCalled ::
      if enabled then
        match r.ainit with
        | .fn (.error _) => [.ainitCalled, .logged]
        | .fn (.ok _) => [.ainitCalled]
        | .absent => []
      else [])
  | .absent =>
    if enabled then
      match r.ainit with
      | .fn (.error _) => [.ainitCalled, .logged]
      | .fn (.ok _) => [.ainitCalled]
      | .absent => []
    else []

/-- The `try`/`catch` body of `Rule.execute`, given the already-computed
enabled state: the effects it performs, in order. An exception anywhere in
steps 2–5 reaches only the `catch`, which logs. -/
def executeBody (r : MRule) (enabled : Bool) : List Effect :=
  match evalCss r.css with
  | .error _ => [.logged]
  | .ok s1 =>
    match (if enabled then evalCss r.acss else .ok []) with
    | .error _ => [.logged]
    | .ok s2 =>
      Effect.styleAppend (String.intercalate "\n" (s1 ++ s2)) :: runInits r enabled

/-- `Rule.execute`: `isEnabled` runs before the `try` block, so its
exception propagates; every exception inside the block is caught. -/
def execute (r : MRule) : Except ExecErr (List Effect) :=
  match isEnabled r with
  | .error e => .error e
  | .ok enabled => .ok (executeBody r enabled)

/-- The batch execution `rule.query().forEach(rule => rule.execute())`:
rules run in order; an exception escaping one `execute` aborts the
iteration, leaving every later rule unexecuted. Returns the per-rule
effect lists of the rules that did execute and the escaped exception, if
any. -/
def executeAll : List MRule → List (List Effect) × Option ExecErr
  | [] => ([], none)
  | r :: rest =>
    match execute r with
    | .ok effs =>
      let (l, e) := executeAll rest
      (effs :: l, e)
    | .error e => ([], some e)

/-! ## Claims -/

/-- C9: tokenizing the template string `{{a}}||[[r]]text&amp;` and filtering
by mode yields, in `recursive` mode, exactly the token sequence
`[child:a, splitter:||, rule:r, text:"text", text:"&amp;"]`, and in `text`
mode exactly `[child:a, text:"text", text:"&amp;"]` (splitter and rule
tokens dropped). -/
theorem c9_tokenize_template_modes :
    filteredTokens (tokenize ("\x7b\x7ba\x7d\x7d||[[r]]text&amp;"))
        (modeTypes ("recursive")) =
      [⟨.child, "a"⟩, ⟨.splitter, "||"⟩, ⟨.rule, "r"⟩, ⟨.text, "text"⟩,
        ⟨.text, "&amp;"⟩] ∧
    filteredTokens (tokenize ("\x7b\x7ba\x7d\x7d||[[r]]text&amp;"))
        (modeTypes ("text")) =
      [⟨.child, "a"⟩, ⟨.text, "text"⟩, ⟨.text, "&amp;"⟩] := by
  constructor <;> decide

/-- C1 (code bug): `getConfig`'s write-back test compares
`JSON.stringify(value)` (a string) against the normalized *value* instead of
its serialization. For a Boolean item whose store holds `true`,
normalization changes nothing (identical serialization), yet the code calls
`config.set`; for a Select item (options `[{value:'a'}]`) whose store holds
`0`, normalization changes the value, yet the falsy `value` guard skips the
write. The claim's if-and-only-if condition (`specWriteCondition`) disagrees
with the code's condition (`getConfigWrites`) on both inputs. -/
theorem c1_getconfig_write_divergence :
    getConfigWrites boolNormalize (JSValue.vBool true) = true ∧
    specWriteCondition boolNormalize (JSValue.vBool true) = false ∧
    getConfigWrites (selectNormalize [⟨"a", JSValue.vStr "a"⟩])
        (JSValue.vNum (.num 0)) = false ∧
    specWriteCondition (selectNormalize [⟨"a", JSValue.vStr "a"⟩])
        (JSValue.vNum (.num 0)) = true := by
  decide

/-- C7 counterexample: a `SelectConfigItem` declared with an *empty* option
list is accepted by the constructor (an empty array is truthy and vacuously
all-string), contradicting the claim that an empty option list fails with
`InvalidOptionsError`. -/
theorem c7_cex_empty_select_accepted :
    selectCtorFails (SelAttr.arr []) = false := by
  decide

/-- C7 amended: `SelectConfigItem` construction fails exactly when the
declared `select` attribute is absent, not an array, or contains a
non-string option value; it succeeds on every array — including the empty
one — whose option values are all strings. -/
theorem c7_amended_select_ctor (attr : SelAttr) :
    selectCtorFails attr = false ↔
      ∃ opts, attr = SelAttr.arr opts ∧ ∀ o ∈ opts, isStr o.value = true := by
  cases attr with
  | absent => simp [selectCtorFails]
  | nonArray v => simp [selectCtorFails]
  | arr opts => simp [selectCtorFails, List.any_eq_true]

/-- C2: constructing a `Group` whose declared parent is not a `Tab`
instance, or a `Rule` whose declared parent is not a `Group` instance,
throws the structural error synchronously (the parent-class check precedes
`super`), and the construction state is returned untouched: the failed node
is appended to no `children` list and to no global registry. -/
theorem c2_structural_error_no_partial_registration
    (w : World) (gp rp : Option NodeRef)
    (hg : ∀ r, gp = some r → r.cls ≠ NodeClass.tab)
    (hr : ∀ r, rp = some r → r.cls ≠ NodeClass.group) :
    groupCtor w gp = (w, Except.error CtorErr.structural) ∧
    ruleCtor w rp = (w, Except.error CtorErr.structural) := by
  constructor
  · cases gp with
    | none => simp [groupCtor]
    | some r => simp [groupCtor, hg r rfl]
  · cases rp with
    | none => simp [ruleCtor]
    | some r => simp [ruleCtor, hr r rfl]

/-- Witness for C2: a `Group` declared under a `Group`, and a `Rule`
declared under a `Tab`, both fail structurally and leave the world—here one
tab with one child—exactly as it was. -/
theorem c2_witness :
    (∀ r, (some ⟨7, NodeClass.group⟩ : Option NodeRef) = some r →
      r.cls ≠ NodeClass.tab) ∧
    (∀ r, (some ⟨3, NodeClass.tab⟩ : Option NodeRef) = some r →
      r.cls ≠ NodeClass.group) ∧
    groupCtor ⟨[3], [(3, [7])], 8⟩ (some ⟨7, NodeClass.group⟩) =
      (⟨[3], [(3, [7])], 8⟩, Except.error CtorErr.structural) ∧
    ruleCtor ⟨[3], [(3, [7])], 8⟩ (some ⟨3, NodeClass.tab⟩) =
      (⟨[3], [(3, [7])], 8⟩, Except.error CtorErr.structural) := by
  refine ⟨?_, ?_, ?_⟩
  · intro r h
    injection h with h
    subst h
    decide
  · intro r h
    injection h with h
    subst h
    decide
  · exact c2_structural_error_no_partial_registration ⟨[3], [(3, [7])], 8⟩
      (some ⟨7, NodeClass.group⟩) (some ⟨3, NodeClass.tab⟩)
      (by intro r h; injection h with h; subst h; decide)
      (by intro r h; injection h with h; subst h; decide)

/-- Strict equality against a string value is structural equality. -/
theorem strictEq_vStr (s : String) (v : JSValue) :
    (JSValue.vStr s).strictEq v = true ↔ v = JSValue.vStr s := by
  cases v with
  | vNum n => cases n <;> simp [JSValue.strictEq]
  | vStr t =>
    simp only [JSValue.strictEq, beq_iff_eq, JSValue.vStr.injEq]
    exact eq_comm
  | _ => simp [JSValue.strictEq]

/-- For an all-string option list, the `find` test of `selectNormalize`
succeeds exactly when some option's value structurally equals the probed
value. -/
theorem select_any_eq (opts : List SelOpt) (v : JSValue)
    (hstr : ∀ o ∈ opts, ∃ s, o.value = JSValue.vStr s) :
    (opts.any fun o => o.value.strictEq v) = true ↔ ∃ o ∈ opts, o.value = v := by
  rw [List.any_eq_true]
  constructor
  · rintro ⟨o, ho, heq⟩
    obtain ⟨s, hs⟩ := hstr o ho
    rw [hs] at heq
    rw [strictEq_vStr] at heq
    exact ⟨o, ho, by rw [hs, heq]⟩
  · rintro ⟨o, ho, heq⟩
    obtain ⟨s, hs⟩ := hstr o ho
    refine ⟨o, ho, ?_⟩
    rw [hs, strictEq_vStr, ← heq, hs]

/-- C8: for every `SelectConfigItem` with a declared (nonempty, all-string —
as the constructor enforces) option list and every value `v`:
`normalize(v)` equals `v` if and only if some declared option's value
equals `v`; otherwise `normalize(v)` equals the first option's value, which
is the item's initial value. -/
theorem c8_select_fallback (opts : List SelOpt) (v : JSValue)
    (hne : opts ≠ [])
    (hstr : ∀ o ∈ opts, ∃ s, o.value = JSValue.vStr s) :
    (selectNormalize opts v = v ↔ ∃ o ∈ opts, o.value = v) ∧
    (¬(∃ o ∈ opts, o.value = v) →
      selectNormalize opts v = (opts.head hne).value ∧
      selectInitial opts = (opts.head hne).value) := by
  have hinit : selectInitial opts = (opts.head hne).value := by
    cases opts with
    | nil => exact absurd rfl hne
    | cons o rest => rfl
  by_cases hfind : (opts.any fun o => o.value.strictEq v) = true
  · have hex := (select_any_eq opts v hstr).mp hfind
    refine ⟨⟨fun _ => hex, fun _ => ?_⟩, fun hno => absurd hex hno⟩
    simp [selectNormalize, hfind]
  · have hno := hfind
    rw [select_any_eq opts v hstr] at hno
    have hval : selectNormalize opts v = (opts.head hne).value := by
      simp only [selectNormalize, Bool.not_eq_true] at hfind ⊢
      rw [hfind, if_neg (by simp)]
      exact hinit
    refine ⟨⟨fun heq => ?_, fun hex => absurd hex hno⟩, fun _ => ⟨hval, hinit⟩⟩
    rw [hval] at heq
    exact absurd ⟨opts.head hne, List.head_mem hne, heq⟩ hno

/-- Witness for C8: options `a`, `b`; the stored value `b` is kept, and the
out-of-domain value `7` falls back to the first option's value `a`. -/
theorem c8_witness :
    (([⟨"nameA", JSValue.vStr "a"⟩, ⟨"nameB", JSValue.vStr "b"⟩] :
        List SelOpt) ≠ []) ∧
    (selectNormalize [⟨"nameA", JSValue.vStr "a"⟩, ⟨"nameB", JSValue.vStr "b"⟩]
        (JSValue.vStr "b") = JSValue.vStr "b" ↔
      ∃ o ∈ ([⟨"nameA", JSValue.vStr "a"⟩, ⟨"nameB", JSValue.vStr "b"⟩] :
        List SelOpt), o.value = JSValue.vStr "b") := by
  refine ⟨by decide, ?_⟩
  exact (c8_select_fallback
    [⟨"nameA", JSValue.vStr "a"⟩, ⟨"nameB", JSValue.vStr "b"⟩]
    (JSValue.vStr "b") (by decide)
    (by intro o ho
        rcases List.mem_cons.mp ho with h | h
        · exact ⟨"a", by rw [h]⟩
        · rw [List.mem_singleton.mp h]
          exact ⟨"b", rfl⟩)).1

/-- The threaded walk of `query` is the fold of ordered-set insertion over
the depth-first rule sequence. -/
theorem queryAux_eq_foldl : ∀ (ts : List RTree) (acc : List Nat),
    queryAux ts acc = (dfsRules ts).foldl setAdd acc
  | [], _ => by simp [queryAux, dfsRules]
  | .node id cls children :: rest, acc => by
    simp only [queryAux, dfsRules, List.foldl_append]
    rw [queryAux_eq_foldl rest, queryAux_eq_foldl children]
    by_cases hc : isContainer cls = true <;>
      by_cases hr : isRuleInst cls = true <;>
        simp [hc, hr, List.foldl]

/-- Membership in a `setAdd` fold: exactly the elements already present or
inserted. -/
theorem mem_foldl_setAdd (l : List Nat) (acc : List Nat) (x : Nat) :
    x ∈ l.foldl setAdd acc ↔ x ∈ acc ∨ x ∈ l := by
  induction l generalizing acc with
  | nil => simp
  | cons y ys ih =>
    rw [List.foldl_cons, ih]
    unfold setAdd
    by_cases hy : y ∈ acc
    · simp only [if_pos hy, List.mem_cons]
      constructor
      · rintro (h | h)
        · exact Or.inl h
        · exact Or.inr (Or.inr h)
      · rintro (h | h | h)
        · exact Or.inl h
        · exact Or.inl (h ▸ hy)
        · exact Or.inr h
    · simp only [if_neg hy, List.mem_append, List.mem_singleton, List.mem_cons]
      tauto

/-- Ordered-set insertion keeps the list duplicate-free. -/
theorem nodup_foldl_setAdd (l : List Nat) (acc : List Nat)
    (h : acc.Nodup) : (l.foldl setAdd acc).Nodup := by
  induction l generalizing acc with
  | nil => exact h
  | cons y ys ih =>
    rw [List.foldl_cons]
    refine ih _ ?_
    unfold setAdd
    by_cases hy : y ∈ acc
    · simpa [hy] using h
    · rw [if_neg hy, ← List.concat_eq_append]
      exact h.concat hy

/-- C6: for every forest given as the `base` argument, `query` returns the
depth-first sequence of reachable `Rule` nodes with the first occurrence of
every node kept: each reachable `Rule` appears exactly once (no
duplicates), at its first-visit position, and a node is in the result
exactly when the depth-first walk visits it as a `Rule` instance — `Tab`
and `Group` nodes are recursed into (`dfsRules` descends only into them)
but are never themselves added. -/
theorem c6_query_depth_first_dedup (base : List RTree) :
    query base = dedupFirst (dfsRules base) ∧
    (query base).Nodup ∧
    (∀ i, i ∈ query base ↔ i ∈ dfsRules base) := by
  have he : query base = dedupFirst (dfsRules base) :=
    queryAux_eq_foldl base []
  refine ⟨he, ?_, fun i => ?_⟩
  · rw [he]
    exact nodup_foldl_setAdd _ _ List.nodup_nil
  · rw [he]
    unfold dedupFirst
    rw [mem_foldl_setAdd]
    simp

/-- A rule that is `always` or has an `id` determines its enabled state
without throwing. -/
theorem isEnabled_ok (r : MRule) (h : r.always = true ∨ r.hasId = true) :
    isEnabled r = .ok (enabledOf r) := by
  unfold isEnabled enabledOf
  rcases h with h | h <;> simp [h]
  by_cases ha : r.always = true <;> simp [ha]

/-- C3: any exception raised during steps 2–5 of a Rule's execution
(collecting `css`, collecting `acss` when enabled, calling `init`, calling
`ainit` when enabled) is caught inside that rule's `execute` and does not
propagate, so — provided every rule's enabled-state read itself succeeds
(it is `always` or has an `id`) — the batch execution runs the body of
*every* declared rule: no escaped exception, and the effect list of each
rule, whatever throws inside it, is produced in declaration order. -/
theorem c3_fault_isolation_per_rule (rs : List MRule)
    (h : ∀ r ∈ rs, r.always = true ∨ r.hasId = true) :
    executeAll rs = (rs.map fun r => executeBody r (enabledOf r), none) ∧
    (∀ r ∈ rs, execute r = .ok (executeBody r (enabledOf r))) := by
  have hex : ∀ r ∈ rs, execute r = .ok (executeBody r (enabledOf r)) := by
    intro r hr
    unfold execute
    rw [isEnabled_ok r (h r hr)]
  refine ⟨?_, hex⟩
  induction rs with
  | nil => rfl
  | cons r rest ih =>
    have hr := hex r (List.mem_cons_self r rest)
    unfold executeAll
    rw [hr]
    rw [ih (fun x hx => h x (List.mem_cons_of_mem r hx))
      (fun x hx => hex x (List.mem_cons_of_mem r hx))]
    rfl

/-- Witness for C3: rule `A` (with an id, enabled by a stored `true`) has an
`init` that throws; rule `B`, declared after `A`, still runs its `css`,
`acss`, `init` and `ainit`: the batch yields both effect lists and no
escaped exception. `A`'s throw is visible only as its trailing log entry. -/
theorem c3_witness :
    (∀ r ∈ [(⟨false, true, JSValue.vBool true, CssSpec.str "a-css", CssSpec.str "a-acss",
        FnSpec.fn (Except.error ()), FnSpec.fn (Except.ok ())⟩ : MRule),
      (⟨false, true, JSValue.vBool true, CssSpec.str "b-css", CssSpec.str "b-acss",
        FnSpec.fn (Except.ok ()), FnSpec.fn (Except.ok ())⟩ : MRule)],
      r.always = true ∨ r.hasId = true) ∧
    executeAll [⟨false, true, JSValue.vBool true, CssSpec.str "a-css", CssSpec.str "a-acss",
        FnSpec.fn (Except.error ()), FnSpec.fn (Except.ok ())⟩,
      ⟨false, true, JSValue.vBool true, CssSpec.str "b-css", CssSpec.str "b-acss",
        FnSpec.fn (Except.ok ()), FnSpec.fn (Except.ok ())⟩] =
      ([[Effect.styleAppend ("a-css\na-acss"), Effect.initCalled, Effect.logged],
        [Effect.styleAppend ("b-css\nb-acss"), Effect.initCalled, Effect.ainitCalled]],
        none) := by
  refine ⟨by decide, ?_⟩
  refine (c3_fault_isolation_per_rule _ (by decide)).1.trans ?_
  rfl

/-- C10: `Rule.execute` evaluates `isEnabled()` before the `try` block, so
for a non-`always` rule lacking an `id` the missing-id error thrown by the
first config access propagates out of `execute` uncaught, and the batch
execution — which runs the query result in order — executes exactly the
rules before it and none after. -/
theorem c10_missing_id_aborts_batch (pre : List MRule) (bad : MRule)
    (rest : List MRule)
    (hpre : ∀ r ∈ pre, r.always = true ∨ r.hasId = true)
    (ha : bad.always = false) (hi : bad.hasId = false) :
    execute bad = .error .missingId ∧
    executeAll (pre ++ bad :: rest) =
      (pre.map fun r => executeBody r (enabledOf r), some ExecErr.missingId) := by
  have hbad : execute bad = .error .missingId := by
    unfold execute isEnabled
    simp [ha, hi]
  refine ⟨hbad, ?_⟩
  induction pre with
  | nil =>
    simp [executeAll, hbad]
  | cons r rs ih =>
    have hr : execute r = .ok (executeBody r (enabledOf r)) := by
      unfold execute
      rw [isEnabled_ok r (hpre r (List.mem_cons_self r rs))]
    rw [List.cons_append]
    unfold executeAll
    rw [hr, ih (fun x hx => hpre x (List.mem_cons_of_mem r hx))]
    rfl

/-- Witness for C10: a healthy rule runs, then a rule without an id throws
out of `execute`; the rule declared after it is never executed — the batch
result contains only the first rule's effects plus the escaped error. -/
theorem c10_witness :
    ((∀ r ∈ [(⟨true, false, JSValue.vNull, CssSpec.str "a-css", CssSpec.absent,
        FnSpec.absent, FnSpec.absent⟩ : MRule)],
        r.always = true ∨ r.hasId = true) ∧
      (⟨false, false, JSValue.vNull, CssSpec.absent, CssSpec.absent,
        FnSpec.absent, FnSpec.absent⟩ : MRule).always = false ∧
      (⟨false, false, JSValue.vNull, CssSpec.absent, CssSpec.absent,
        FnSpec.absent, FnSpec.absent⟩ : MRule).hasId = false) ∧
    executeAll [⟨true, false, JSValue.vNull, CssSpec.str "a-css", CssSpec.absent,
        FnSpec.absent, FnSpec.absent⟩,
      ⟨false, false, JSValue.vNull, CssSpec.absent, CssSpec.absent,
        FnSpec.absent, FnSpec.absent⟩,
      ⟨true, false, JSValue.vNull, CssSpec.str "never-css", CssSpec.absent,
        FnSpec.absent, FnSpec.absent⟩] =
      ([[Effect.styleAppend ("a-css")]], some ExecErr.missingId) := by
  refine ⟨⟨by decide, rfl, rfl⟩, ?_⟩
  refine ((c10_missing_id_aborts_batch
    [⟨true, false, JSValue.vNull, CssSpec.str "a-css", CssSpec.absent,
        FnSpec.absent, FnSpec.absent⟩]
    ⟨false, false, JSValue.vNull, CssSpec.absent, CssSpec.absent,
        FnSpec.absent, FnSpec.absent⟩
    [⟨true, false, JSValue.vNull, CssSpec.str "never-css", CssSpec.absent,
        FnSpec.absent, FnSpec.absent⟩]
    (by decide) rfl rfl).2).trans ?_
  rfl

/-! ## Rational facts about the snapping remainder -/

/-- Truncation is the identity on integers. -/
theorem ratTrunc_intCast (k : ℤ) : JSNum.ratTrunc (k : ℚ) = k := by
  unfold JSNum.ratTrunc
  split <;> simp

/-- An exact multiple of the divisor leaves remainder `0`. -/
theorem remQ_mul_int (qstep : ℚ) (hstep : qstep ≠ 0) (k : ℤ) :
    JSNum.remQ (qstep * k) qstep = 0 := by
  unfold JSNum.remQ
  rw [mul_comm qstep (k : ℚ), mul_div_assoc, div_self hstep, mul_one,
    ratTrunc_intCast]
  ring

/-- For a nonnegative dividend and nonzero divisor, the truncated quotient
times the divisor lies between `0` and the dividend (whatever the sign of
the divisor). -/
theorem trunc_mul_bounds (d qstep : ℚ) (hd : 0 ≤ d) (hstep : qstep ≠ 0) :
    0 ≤ qstep * JSNum.ratTrunc (d / qstep) ∧
      qstep * JSNum.ratTrunc (d / qstep) ≤ d := by
  have hcancel : qstep * (d / qstep) = d := by
    field_simp
  rcases lt_or_gt_of_ne hstep with hneg | hpos
  · have hdb : d / qstep ≤ 0 := div_nonpos_of_nonneg_of_nonpos hd hneg.le
    unfold JSNum.ratTrunc
    split_ifs with h
    · have h0 : d / qstep = 0 := le_antisymm hdb h
      rw [h0]
      simpa using hd
    · have hceil : ((⌈d / qstep⌉ : ℤ) : ℚ) ≤ 0 := by
        have : ⌈d / qstep⌉ ≤ (0 : ℤ) := Int.ceil_le.mpr (by exact_mod_cast hdb)
        exact_mod_cast this
      have hge : (d / qstep : ℚ) ≤ ((⌈d / qstep⌉ : ℤ) : ℚ) := Int.le_ceil _
      constructor
      · nlinarith [mul_nonneg (neg_nonneg.mpr hneg.le) (neg_nonneg.mpr hceil)]
      · have hmul := mul_le_mul_of_nonpos_left hge hneg.le
        calc qstep * ((⌈d / qstep⌉ : ℤ) : ℚ) ≤ qstep * (d / qstep) := hmul
          _ = d := hcancel
  · have hdb : 0 ≤ d / qstep := div_nonneg hd hpos.le
    unfold JSNum.ratTrunc
    rw [if_pos hdb]
    constructor
    · exact mul_nonneg hpos.le (by exact_mod_cast Int.floor_nonneg.mpr hdb)
    · have hle : ((⌊d / qstep⌋ : ℤ) : ℚ) ≤ d / qstep := Int.floor_le _
      calc qstep * ((⌊d / qstep⌋ : ℤ) : ℚ) ≤ qstep * (d / qstep) :=
            mul_le_mul_of_nonneg_left hle hpos.le
        _ = d := hcancel

/-- `remQ` of a nonnegative dividend by a nonzero divisor stays between `0`
and the dividend, and removing it lands on an exact multiple of the
divisor. -/
theorem remQ_bounds (d qstep : ℚ) (hd : 0 ≤ d) (hstep : qstep ≠ 0) :
    0 ≤ JSNum.remQ d qstep ∧ JSNum.remQ d qstep ≤ d ∧
      d - JSNum.remQ d qstep = qstep * JSNum.ratTrunc (d / qstep) := by
  obtain ⟨h1, h2⟩ := trunc_mul_bounds d qstep hd hstep
  unfold JSNum.remQ
  refine ⟨by linarith, by linarith, by ring⟩

/-! ## Characterizing `NumberConfigItem.normalize` -/

/-- A non-finite coerced input returns the initial value (`this.min`)
immediately, for every configuration. -/
theorem numberNormalize_nonfinite (cfg : NumCfg) (v : JSValue)
    (h : v.toNumber.isFinite = false) :
    numberNormalize cfg v = .vNum cfg.min := by
  unfold numberNormalize
  simp [h, numberInitial]

/-- On a finite coerced input, normalization with a finite `min`, a finite
nonzero `step`, and a `max` other than `-Infinity` computes the two clamps
followed by remainder subtraction, at the rational level. -/
theorem numberNormalize_finite (qmin qstep qv : ℚ) (maxN : JSNum)
    (hmax : maxN ≠ .negInf) (hstep : qstep ≠ 0) (v : JSValue)
    (hv : v.toNumber = .num qv) :
    numberNormalize ⟨.num qmin, maxN, .num qstep⟩ v =
      .vNum (.num (maxClampQ maxN (minClampQ qmin qv) -
        JSNum.remQ (maxClampQ maxN (minClampQ qmin qv) - qmin) qstep)) := by
  unfold numberNormalize
  rw [hv]
  cases maxN with
  | negInf => exact absurd rfl hmax
  | nan =>
    by_cases h1 : qv < qmin <;>
      simp [JSNum.isFinite, JSNum.isNaN, JSNum.lt, JSNum.sub, JSNum.rem,
        minClampQ, maxClampQ, h1, hstep]
  | posInf =>
    by_cases h1 : qv < qmin <;>
      simp [JSNum.isFinite, JSNum.isNaN, JSNum.lt, JSNum.sub, JSNum.rem,
        minClampQ, maxClampQ, h1, hstep]
  | num qmax =>
    by_cases h1 : qv < qmin
    · by_cases h2 : qmax < qmin <;>
        simp [JSNum.isFinite, JSNum.isNaN, JSNum.lt, JSNum.sub, JSNum.rem,
          minClampQ, maxClampQ, h1, h2, hstep]
    · by_cases h2 : qmax < qv <;>
        simp [JSNum.isFinite, JSNum.isNaN, JSNum.lt, JSNum.sub, JSNum.rem,
          minClampQ, maxClampQ, h1, h2, hstep]

/-- The clamped value of a well-formed configuration is at least `min` and
within any declared finite `max`. -/
theorem maxClampQ_bounds (qmin c1 : ℚ) (maxN : JSNum) (hmax : maxOk qmin maxN)
    (hc1 : qmin ≤ c1) :
    qmin ≤ maxClampQ maxN c1 ∧ ∀ qmax, maxN = .num qmax →
      maxClampQ maxN c1 ≤ qmax := by
  cases maxN with
  | num qmax =>
    simp only [maxClampQ]
    simp only [maxOk] at hmax
    split_ifs with h
    · exact ⟨hmax, fun q hq => by cases hq; exact le_refl _⟩
    · exact ⟨hc1, fun q hq => by cases hq; exact le_of_not_lt h⟩
  | nan => exact ⟨hc1, fun q hq => by cases hq⟩
  | posInf => exact ⟨hc1, fun q hq => by cases hq⟩
  | negInf => simp only [maxOk] at hmax

/-- Core characterization of `NumberConfigItem.normalize` for a
configuration with finite `min`, finite nonzero `step` and a well-formed
`max`: every input normalizes to a finite value `q` with `min ≤ q`, below
any declared finite `max`, equal to `min` plus an integer multiple of
`step`, and `q` is a fixed point of normalization. -/
theorem numberNormalize_core (qmin qstep : ℚ) (maxN : JSNum)
    (hstep : qstep ≠ 0) (hmax : maxOk qmin maxN) (v : JSValue) :
    ∃ (q : ℚ) (k : ℤ),
      numberNormalize ⟨.num qmin, maxN, .num qstep⟩ v = .vNum (.num q) ∧
      qmin ≤ q ∧
      (∀ qmax, maxN = .num qmax → q ≤ qmax) ∧
      q = qmin + qstep * k ∧
      numberNormalize ⟨.num qmin, maxN, .num qstep⟩ (.vNum (.num q)) =
        .vNum (.num q) := by
  have hmaxne : maxN ≠ .negInf := by
    cases maxN <;> first | exact hmax.elim | exact fun h => by cases h
  have hfix : ∀ q : ℚ, qmin ≤ q → (∀ qmax, maxN = .num qmax → q ≤ qmax) →
      (∃ k : ℤ, q = qmin + qstep * k) →
      numberNormalize ⟨.num qmin, maxN, .num qstep⟩ (.vNum (.num q)) =
        .vNum (.num q) := by
    intro q hq hqmax ⟨k, hk⟩
    rw [numberNormalize_finite qmin qstep q maxN hmaxne hstep
      (JSValue.vNum (.num q)) rfl]
    have hmin : minClampQ qmin q = q := by
      unfold minClampQ
      rw [if_neg (not_lt.mpr hq)]
    rw [hmin]
    have hmaxc : maxClampQ maxN q = q := by
      cases maxN with
      | num qmax =>
        simp only [maxClampQ]
        rw [if_neg (not_lt.mpr (hqmax qmax rfl))]
      | nan => rfl
      | posInf => rfl
      | negInf => exact absurd rfl hmaxne
    rw [hmaxc]
    have hrem : JSNum.remQ (q - qmin) qstep = 0 := by
      rw [hk]
      have : qmin + qstep * (k : ℚ) - qmin = qstep * (k : ℚ) := by ring
      rw [this]
      exact remQ_mul_int qstep hstep k
    rw [hrem, sub_zero]
  cases hfin : v.toNumber with
  | num qv =>
    set c1 := minClampQ qmin qv with hc1def
    have hc1 : qmin ≤ c1 := by
      rw [hc1def]
      unfold minClampQ
      split_ifs with h
      · exact le_refl _
      · exact le_of_not_lt h
    obtain ⟨hcmin, hcmax⟩ := maxClampQ_bounds qmin c1 maxN hmax hc1
    set c := maxClampQ maxN c1 with hcdef
    have hd : 0 ≤ c - qmin := by linarith
    obtain ⟨hr0, hrd, hmul⟩ := remQ_bounds (c - qmin) qstep hd hstep
    set q := c - JSNum.remQ (c - qmin) qstep with hqdef
    set k := JSNum.ratTrunc ((c - qmin) / qstep) with hkdef
    have hqk : q = qmin + qstep * k := by
      rw [hqdef]
      have : c - JSNum.remQ (c - qmin) qstep =
          qmin + ((c - qmin) - JSNum.remQ (c - qmin) qstep) := by ring
      rw [this, hmul]
    have hqmin : qmin ≤ q := by
      rw [hqdef]
      linarith
    have hqmax : ∀ qmax, maxN = .num qmax → q ≤ qmax := by
      intro qmax hm
      have := hcmax qmax hm
      rw [hqdef]
      linarith
    refine ⟨q, k, ?_, hqmin, hqmax, hqk, hfix q hqmin hqmax ⟨k, hqk⟩⟩
    rw [numberNormalize_finite qmin qstep qv maxN hmaxne hstep v hfin]
  | nan =>
    refine ⟨qmin, 0, ?_, le_refl _, ?_, by ring, hfix qmin (le_refl _) ?_ ⟨0, by ring⟩⟩
    · exact numberNormalize_nonfinite _ v (by rw [hfin]; rfl)
    · intro qmax hm
      rw [hm] at hmax
      exact hmax
    · intro qmax hm
      rw [hm] at hmax
      exact hmax
  | posInf =>
    refine ⟨qmin, 0, ?_, le_refl _, ?_, by ring, hfix qmin (le_refl _) ?_ ⟨0, by ring⟩⟩
    · exact numberNormalize_nonfinite _ v (by rw [hfin]; rfl)
    · intro qmax hm
      rw [hm] at hmax
      exact hmax
    · intro qmax hm
      rw [hm] at hmax
      exact hmax
  | negInf =>
    refine ⟨qmin, 0, ?_, le_refl _, ?_, by ring, hfix qmin (le_refl _) ?_ ⟨0, by ring⟩⟩
    · exact numberNormalize_nonfinite _ v (by rw [hfin]; rfl)
    · intro qmax hm
      rw [hm] at hmax
      exact hmax
    · intro qmax hm
      rw [hm] at hmax
      exact hmax

/-- The snapping remainder at the concrete point needed below:
`(-7) % 1 = 0`. -/
theorem remQ_neg_seven_one : JSNum.remQ (-7) 1 = 0 := by
  rw [show ((-7 : ℚ)) = 1 * ((-7 : ℤ) : ℚ) by norm_num]
  exact remQ_mul_int 1 one_ne_zero (-7)

/-- C4 counterexample: Number/Range normalization is not idempotent for
every configuration. With `step = 0` the snap computes `x % 0 = NaN`, which
re-normalizes to the initial value; likewise with `max = -Infinity` or
`min = Infinity` the snap degenerates to `NaN`; and with an inverted finite
range (`min = 10 > 3 = max`) the input `NaN` normalizes to `min = 10`,
which re-normalizes to `3`. -/
theorem c4_cex_number_not_idempotent :
    numberNormalize ⟨.num 0, .posInf, .num 0⟩
        (numberNormalize ⟨.num 0, .posInf, .num 0⟩ (.vNum (.num 5))) ≠
      numberNormalize ⟨.num 0, .posInf, .num 0⟩ (.vNum (.num 5)) ∧
    numberNormalize ⟨.num 0, .negInf, .num 1⟩
        (numberNormalize ⟨.num 0, .negInf, .num 1⟩ (.vNum (.num 5))) ≠
      numberNormalize ⟨.num 0, .negInf, .num 1⟩ (.vNum (.num 5)) ∧
    numberNormalize ⟨.posInf, .posInf, .num 1⟩
        (numberNormalize ⟨.posInf, .posInf, .num 1⟩ (.vNum (.num 5))) ≠
      numberNormalize ⟨.posInf, .posInf, .num 1⟩ (.vNum (.num 5)) ∧
    numberNormalize ⟨.num 10, .num 3, .num 1⟩
        (numberNormalize ⟨.num 10, .num 3, .num 1⟩ (.vNum .nan)) ≠
      numberNormalize ⟨.num 10, .num 3, .num 1⟩ (.vNum .nan) := by
  refine ⟨by decide, by decide, by decide, ?_⟩
  rw [numberNormalize_nonfinite ⟨.num 10, .num 3, .num 1⟩ (.vNum .nan) rfl]
  rw [numberNormalize_finite 10 1 10 (.num 3) (by decide) (by norm_num)
    (.vNum (.num 10)) rfl]
  norm_num [minClampQ, maxClampQ, remQ_neg_seven_one]

/-- C4 amended: normalization is idempotent for the Boolean variant and the
Select variant at every input, and for the Number and Range variants (which
share one normalization function) at every input whenever the configured
`min` and `step` are finite numbers, `step ≠ 0`, and `max` is well-formed
(`NaN`, `Infinity` — the class default — or a finite bound at least `min`:
`maxOk`). The configurations excluded by `maxOk` and `step ≠ 0` genuinely
break idempotence, per the counterexample. -/
theorem c4_amended_idempotent_normalization :
    (∀ v, boolNormalize (boolNormalize v) = boolNormalize v) ∧
    (∀ opts v, selectNormalize opts (selectNormalize opts v) =
      selectNormalize opts v) ∧
    rangeNormalize = numberNormalize ∧
    (∀ (qmin qstep : ℚ) (maxN : JSNum) (v : JSValue), qstep ≠ 0 →
      maxOk qmin maxN →
      numberNormalize ⟨.num qmin, maxN, .num qstep⟩
          (numberNormalize ⟨.num qmin, maxN, .num qstep⟩ v) =
        numberNormalize ⟨.num qmin, maxN, .num qstep⟩ v) := by
  refine ⟨fun v => by cases v <;> rfl, fun opts v => ?_, rfl, ?_⟩
  · have hinit : selectNormalize opts (selectInitial opts) =
        selectInitial opts := by
      cases opts with
      | nil => rfl
      | cons o rest =>
        unfold selectNormalize
        split_ifs <;> rfl
    have hfix : selectNormalize opts v = v ∨
        selectNormalize opts v = selectInitial opts := by
      unfold selectNormalize
      split_ifs with h
      · exact Or.inl rfl
      · exact Or.inr rfl
    rcases hfix with h | h
    · rw [h]
      exact h
    · rw [h]
      exact hinit
  · intro qmin qstep maxN v hstep hmax
    obtain ⟨q, k, heq, _, _, _, hfixpt⟩ :=
      numberNormalize_core qmin qstep maxN hstep hmax v
    rw [heq]
    exact hfixpt

/-- Witness for C4: the default-like configuration `min 0`, `max ∞`,
`step 1` normalizes `7/2` idempotently. -/
theorem c4_witness :
    ((1 : ℚ) ≠ 0 ∧ maxOk 0 JSNum.posInf) ∧
    numberNormalize ⟨.num 0, .posInf, .num 1⟩
        (numberNormalize ⟨.num 0, .posInf, .num 1⟩ (.vNum (.num (7/2)))) =
      numberNormalize ⟨.num 0, .posInf, .num 1⟩ (.vNum (.num (7/2))) :=
  ⟨⟨by norm_num, trivial⟩,
    c4_amended_idempotent_normalization.2.2.2 0 1 .posInf
      (.vNum (.num (7/2))) (by norm_num) trivial⟩

/-- C5 counterexample: with finite `min = 0`, `max = 10` but `step = 0`,
`normalize(5)` is `NaN` — neither in `[0, 10]` nor of the form
`min + k·step`; and with finite `min = 10 > 3 = max` and `step = 1`,
`normalize(5) = 3`, which does not lie within `[min, max] = [10, 3]`. -/
theorem c5_cex_clamping_fails :
    numberNormalize ⟨.num 0, .num 10, .num 0⟩ (.vNum (.num 5)) =
      .vNum .nan ∧
    numberNormalize ⟨.num 10, .num 3, .num 1⟩ (.vNum (.num 5)) =
      .vNum (.num 3) ∧
    ¬((10 : ℚ) ≤ 3) := by
  refine ⟨by decide, ?_, by norm_num⟩
  rw [numberNormalize_finite 10 1 5 (.num 3) (by decide) (by norm_num)
    (.vNum (.num 5)) rfl]
  norm_num [minClampQ, maxClampQ, remQ_neg_seven_one]

/-- C5 amended: for Number and Range items with numeric finite `min`, `max`
and `step` such that `min ≤ max` and `step ≠ 0` (both necessary, per the
counterexample): a non-finite coerced input yields the initial value (the
configured `min`), and any other input normalizes to a value within
`[min, max]` equal to `min` plus an integer multiple of `step`. -/
theorem c5_amended_number_clamping (qmin qmax qstep : ℚ) (v : JSValue)
    (hle : qmin ≤ qmax) (hstep : qstep ≠ 0) :
    (v.toNumber.isFinite = false →
      numberNormalize ⟨.num qmin, .num qmax, .num qstep⟩ v =
        .vNum (numberInitial ⟨.num qmin, .num qmax, .num qstep⟩) ∧
      numberInitial ⟨.num qmin, .num qmax, .num qstep⟩ = .num qmin) ∧
    (∀ qv, v.toNumber = .num qv →
      ∃ (q : ℚ) (k : ℤ),
        numberNormalize ⟨.num qmin, .num qmax, .num qstep⟩ v =
          .vNum (.num q) ∧
        qmin ≤ q ∧ q ≤ qmax ∧ q = qmin + qstep * k) := by
  constructor
  · intro h
    exact ⟨numberNormalize_nonfinite _ v h, rfl⟩
  · intro qv hqv
    obtain ⟨q, k, heq, h1, h2, h3, _⟩ :=
      numberNormalize_core qmin qstep (.num qmax) hstep hle v
    exact ⟨q, k, heq, h1, h2 qmax rfl, h3⟩

/-- Witness for C5: `min 0`, `max 10`, `step 2` on the inputs `5` (snapped
into range on a step multiple) and `undefined` (non-finite, reset to the
initial `min`). -/
theorem c5_witness :
    ((0 : ℚ) ≤ 10 ∧ (2 : ℚ) ≠ 0) ∧
    ((JSValue.vNum (.num 5)).toNumber.isFinite = false →
      numberNormalize ⟨.num 0, .num 10, .num 2⟩ (.vNum (.num 5)) =
        .vNum (numberInitial ⟨.num 0, .num 10, .num 2⟩) ∧
      numberInitial ⟨.num 0, .num 10, .num 2⟩ = .num 0) ∧
    (∀ qv, (JSValue.vNum (.num 5)).toNumber = .num qv →
      ∃ (q : ℚ) (k : ℤ),
        numberNormalize ⟨.num 0, .num 10, .num 2⟩ (.vNum (.num 5)) =
          .vNum (.num q) ∧
        0 ≤ q ∧ q ≤ 10 ∧ q = 0 + 2 * k) :=
  ⟨⟨by norm_num, by norm_num⟩,
    c5_amended_number_clamping 0 10 2 (.vNum (.num 5))
      (by norm_num) (by norm_num)⟩

end Yawf
